import Mathlib

/-!
Verification of the residue-group enumeration, expression assembly and
atom-lookup logic of cvpack's `RMSDContent` / `SheetRMSDContent` collective
variables, shallowly embedded from `src/cvpack/rmsd_content.py` and
`src/cvpack/sheet_rmsd_content.py`.
-/

deriving instance DecidableEq for Except

namespace CVPack

/-! Topology data model: the slice of the external topology interface that
`RMSDContent._getAtomList` consumes (atom names, atom indices, residue name
and id). -/

structure Atom where
  name : String
  index : Nat
deriving DecidableEq

structure Residue where
  name : String
  id : String
  atoms : List Atom
deriving DecidableEq

/-- Embeds the dict comprehension
`residue_atoms = {atom.name: atom.index for atom in residue.atoms()}`:
a later atom with the same name overrides an earlier one. -/
def atomIndexMap (r : Residue) (key : String) : Option Nat :=
  r.atoms.foldl (fun acc a => if a.name = key then some a.index else acc) none

/-- Errors raised by `RMSDContent._getAtomList`: the bare `KeyError` escaping
from `residue_atoms["HA2"]`, and the descriptive `ValueError` built as
`f"Atom {atom} not found in residue {residue.name}{residue.id}"` (carried here
as its three interpolated fields). -/
inductive AtomError where
  | keyError (key : String)
  | valueError (atom resName resId : String)
deriving DecidableEq

/-- The tuple `("N", "CA", "CB", "C", "O")` iterated by `_getAtomList`. -/
def requiredAtoms : List String := ["N", "CA", "CB", "C", "O"]

/-- The lookup loop of `_getAtomList`: append `residue_atoms[atom]` for each
required atom, turning the first failed lookup into the descriptive error. -/
def lookupRequired (r : Residue) (m : String → Option Nat) :
    List String → Except AtomError (List Nat)
  | [] => .ok []
  | a :: rest =>
    match m a with
    | none => .error (.valueError a r.name r.id)
    | some idx =>
      match lookupRequired r m rest with
      | .error e => .error e
      | .ok tl => .ok (idx :: tl)

/-- Embeds `RMSDContent._getAtomList`. For a glycine (`residue.name == "GLY"`)
the code first executes `residue_atoms["CB"] = residue_atoms["HA2"]`, whose
right-hand dict access raises a bare `KeyError` when no atom is named HA2;
this assignment happens outside the try/except that produces descriptive
errors. -/
def getAtomList (r : Residue) : Except AtomError (List Nat) :=
  if r.name = "GLY" then
    match atomIndexMap r "HA2" with
    | none => .error (.keyError "HA2")
    | some idx =>
      lookupRequired r (fun key => if key = "CB" then some idx else atomIndexMap r key)
        requiredAtoms
  else
    lookupRequired r (atomIndexMap r) requiredAtoms

/-! Expression assembly of `RMSDContent.__init__`. -/

/-- Python `range(a, b)` over naturals (empty when `b ≤ a`). -/
def pyRange (a b : Nat) : List Nat := List.range' a (b - a)

/-- Indices summed by the local helper `expression(start)`:
`range(start, min(start + 32, num_residue_blocks))`. -/
def expressionTerms (n start : Nat) : List Nat := pyRange start (min (start + 32) n)

/-- Number of chunk sub-expressions, `(num_residue_blocks + 31) // 32`. -/
def numChunks (n : Nat) : Nat := (n + 31) / 32

/-- Shape of the assembled composite expression: either one expression owned
directly by the composite force, or a top-level sum of per-chunk
sub-expressions (the `chunk{i}` collective variables). Each payload records
which residue-group indices are summed where. -/
inductive Assembled where
  | single (terms : List Nat)
  | chunked (chunks : List (List Nat))
deriving DecidableEq

/-- The expression structure built by `RMSDContent.__init__`: a single
expression when `num_residue_blocks <= 32`, otherwise one chunk per run of 32
consecutive indices (a new `CustomCVForce` is opened at every index with
`index % 32 == 0`, receiving `expression(index)`). -/
def assembleTree (n : Nat) : Assembled :=
  if n ≤ 32 then .single (expressionTerms n 0)
  else .chunked ((List.range (numChunks n)).map (fun c => expressionTerms n (32 * c)))

/-- Value of one expression over abstract rmsd readings `r`, threshold and
step function `S`: the sum of `S(x_i)` with `x_i = rmsd_i / threshold` over
the indices the expression mentions. -/
def stepTermSum (S : ℚ → ℚ) (r : Nat → ℚ) (threshold : ℚ) (idxs : List Nat) : ℚ :=
  (idxs.map (fun i => S (r i / threshold))).sum

/-- Value of the assembled expression tree: a chunked tree adds the values of
its chunk sub-expressions at the top level. -/
def assembledValue (S : ℚ → ℚ) (r : Nat → ℚ) (threshold : ℚ) : Assembled → ℚ
  | .single terms => stepTermSum S r threshold terms
  | .chunked chunks => (chunks.map (stepTermSum S r threshold)).sum

/-- The state `RMSDContent.__init__` establishes: `_num_residue_blocks` (read
back by `getNumResidueBlocks`), the per-block concatenated atom lists, the
assembled expression and the `normalize` flag. -/
structure RMSDContentModel where
  numResidueBlocks : Nat
  blockAtoms : List (List Nat)
  tree : Assembled
  normalize : Bool
deriving DecidableEq

/-- Errors of `RMSDContent.__init__`: the configuration `ValueError`
`f"{len(residues)} residues yield {n} blocks, which is not between 1 and
1024"` (carried as its two interpolated numbers), an error escaping from
`_getAtomList`, or the unhandled `IndexError` raised by
`residue_atoms[index]` when a block names an out-of-range residue index. -/
inductive InitError where
  | configError (numResidues numBlocks : Nat)
  | atomError (e : AtomError)
  | indexError (index : Nat)
deriving DecidableEq

/-- Embeds `list(map(self._getAtomList, residues))`, propagating the first
error raised. -/
def traverseAtomLists : List Residue → Except AtomError (List (List Nat))
  | [] => .ok []
  | r :: rest =>
    match getAtomList r with
    | .error e => .error e
    | .ok a =>
      match traverseAtomLists rest with
      | .error e => .error e
      | .ok tl => .ok (a :: tl)

/-- Embeds one block's `sum([residue_atoms[index] for index in block], [])`:
the concatenated atom lists of the block's residues, where the first
out-of-range index raises `IndexError` (returned as that index). -/
def concatBlockAtoms (residue_atoms : List (List Nat)) :
    List Nat → Except Nat (List Nat)
  | [] => .ok []
  | idx :: rest =>
    if h : idx < residue_atoms.length then
      match concatBlockAtoms residue_atoms rest with
      | .error e => .error e
      | .ok tl => .ok (residue_atoms.get ⟨idx, h⟩ ++ tl)
    else .error idx

/-- Embeds the `block_atoms` list comprehension over all residue blocks,
propagating the first `IndexError`. -/
def mapBlockAtoms (residue_atoms : List (List Nat)) :
    List (List Nat) → Except Nat (List (List Nat))
  | [] => .ok []
  | block :: rest =>
    match concatBlockAtoms residue_atoms block with
    | .error e => .error e
    | .ok b =>
      match mapBlockAtoms residue_atoms rest with
      | .error e => .error e
      | .ok tl => .ok (b :: tl)

/-- Embeds `RMSDContent.__init__`: the `1 <= num_residue_blocks <= 1024`
check, the atom-list mapping, the per-block atom concatenation
`sum([residue_atoms[index] for index in block], [])` (whose out-of-range
indices raise `IndexError`) and the expression assembly. -/
def rmsdContentInit (residue_blocks : List (List Nat)) (residues : List Residue)
    (normalize : Bool) : Except InitError RMSDContentModel :=
  if 1 ≤ residue_blocks.length ∧ residue_blocks.length ≤ 1024 then
    match traverseAtomLists residues with
    | .error e => .error (.atomError e)
    | .ok residue_atoms =>
      match mapBlockAtoms residue_atoms residue_blocks with
      | .error idx => .error (.indexError idx)
      | .ok block_atoms =>
        .ok { numResidueBlocks := residue_blocks.length
            , blockAtoms := block_atoms
            , tree := assembleTree residue_blocks.length
            , normalize := normalize }
  else
    .error (.configError residues.length residue_blocks.length)

/-- Value of the composite CV: the assembled sum, divided by
`num_residue_blocks` when `normalize` is set (the expression
`f"({summation})/{num_residue_blocks}"`). -/
def modelValue (m : RMSDContentModel) (S : ℚ → ℚ) (r : Nat → ℚ) (threshold : ℚ) : ℚ :=
  if m.normalize then assembledValue S r threshold m.tree / (m.numResidueBlocks : ℚ)
  else assembledValue S r threshold m.tree

/-- Whether an init outcome is the configuration `ValueError` of the
block-count check. -/
def isConfigError : Except InitError RMSDContentModel → Bool
  | .error (.configError _ _) => true
  | _ => false

/-! Residue-group enumeration of `SheetRMSDContent.__init__`. -/

/-- The local `min_distance = 6 if parallel else 5`. -/
def min_distance (parallel : Bool) : Nat := if parallel then 6 else 5

/-- Unblocked enumeration (`blockSizes is None`):
`[[i, i+1, i+2, j, j+1, j+2] for i in range(len(residues) - 2 - min_distance)
for j in range(i + min_distance, len(residues) - 2)]`. -/
def unblockedResidueGroups (n : Nat) (parallel : Bool) : List (List Nat) :=
  (List.range (n - 2 - min_distance parallel)).flatMap fun i =>
    (pyRange (i + min_distance parallel) (n - 2)).map fun j =>
      [i, i + 1, i + 2, j, j + 1, j + 2]

/-- Embeds `bounds = np.insert(np.cumsum(blockSizes), 0, 0)`: the sum of the
first `k` block sizes. -/
def bounds (blockSizes : List Nat) (k : Nat) : Nat := (blockSizes.take k).sum

/-- Blocked enumeration: `[[i, i+1, i+2, j, j+1, j+2]
for k in range(len(blockSizes) - 1)
for i in range(bounds[k], bounds[k + 1] - 2)
for j in range(bounds[k + 1], bounds[k + 2] - 2)]`. -/
def blockedResidueGroups (blockSizes : List Nat) : List (List Nat) :=
  (List.range (blockSizes.length - 1)).flatMap fun k =>
    (pyRange (bounds blockSizes k) (bounds blockSizes (k + 1) - 2)).flatMap fun i =>
      (pyRange (bounds blockSizes (k + 1)) (bounds blockSizes (k + 2) - 2)).map fun j =>
        [i, i + 1, i + 2, j, j + 1, j + 2]

/-- Embeds the group-derivation branch of `SheetRMSDContent.__init__`,
including the `sum(blockSizes) == len(residues)` check guarding the blocked
case. -/
def sheetResidueGroups (numResidues : Nat) (parallel : Bool)
    (blockSizes : Option (List Nat)) : Except String (List (List Nat)) :=
  match blockSizes with
  | none => .ok (unblockedResidueGroups numResidues parallel)
  | some bs =>
    if bs.sum = numResidues then .ok (blockedResidueGroups bs)
    else .error ("The sum of block sizes (" ++ toString bs.sum ++
      ") and the number of residues (" ++ toString numResidues ++ ") must be equal.")

/-! Helper lemmas. -/

theorem mem_pyRange {a b m : Nat} : m ∈ pyRange a b ↔ a ≤ m ∧ m < b := by
  unfold pyRange
  rw [List.mem_range'_1]
  omega

theorem length_pyRange (a b : Nat) : (pyRange a b).length = b - a := by
  unfold pyRange
  rw [List.length_range']

theorem sum_range_rev_mul_two (m : Nat) :
    (∑ i ∈ Finset.range m, (m - i)) * 2 = m * (m + 1) := by
  have h1 : ∑ j ∈ Finset.range (m + 1), (m - j) = ∑ j ∈ Finset.range (m + 1), j := by
    simpa using Finset.sum_range_reflect (fun j => j) (m + 1)
  have h2 : ∑ j ∈ Finset.range (m + 1), (m - j) = ∑ i ∈ Finset.range m, (m - i) := by
    rw [Finset.sum_range_succ]
    simp
  have h3 := Finset.sum_range_id_mul_two (m + 1)
  rw [← h2, h1, h3]
  simp [Nat.mul_comm]

theorem unblockedResidueGroups_length (n : Nat) (parallel : Bool) :
    (unblockedResidueGroups n parallel).length =
      (n - 2 - min_distance parallel) * (n - 1 - min_distance parallel) / 2 := by
  unfold unblockedResidueGroups
  rw [List.length_flatMap]
  have hpt : (List.length ∘ fun i => (pyRange (i + min_distance parallel) (n - 2)).map
        fun j => [i, i + 1, i + 2, j, j + 1, j + 2])
      = fun i => (n - 2 - min_distance parallel) - i := by
    funext i
    simp only [Function.comp_apply, List.length_map, length_pyRange]
    omega
  rw [hpt]
  have hfin : (List.map (fun i => (n - 2 - min_distance parallel) - i)
        (List.range (n - 2 - min_distance parallel))).sum
      = ∑ i ∈ Finset.range (n - 2 - min_distance parallel),
          ((n - 2 - min_distance parallel) - i) := rfl
  rw [hfin]
  have hmul : (n - 2 - min_distance parallel) * ((n - 2 - min_distance parallel) + 1)
      = (n - 2 - min_distance parallel) * (n - 1 - min_distance parallel) := by
    rcases Nat.eq_zero_or_pos (n - 2 - min_distance parallel) with h0 | h0
    · rw [h0]
      simp
    · have hone : (n - 2 - min_distance parallel) + 1 = n - 1 - min_distance parallel := by
        omega
      rw [hone]
  rw [← hmul, ← sum_range_rev_mul_two, Nat.mul_div_cancel _ (by norm_num : (0 : Nat) < 2)]

theorem mem_unblockedResidueGroups (n : Nat) (parallel : Bool) :
    ∀ g, g ∈ unblockedResidueGroups n parallel ↔
      ∃ i j, i < n - 2 - min_distance parallel ∧ i + min_distance parallel ≤ j ∧
        j < n - 2 ∧ g = [i, i + 1, i + 2, j, j + 1, j + 2] := by
  intro g
  unfold unblockedResidueGroups
  simp only [List.mem_flatMap, List.mem_map, List.mem_range, mem_pyRange]
  constructor
  · rintro ⟨i, hi, j, ⟨hj1, hj2⟩, rfl⟩
    exact ⟨i, j, hi, hj1, hj2, rfl⟩
  · rintro ⟨i, j, hi, hj1, hj2, rfl⟩
    exact ⟨i, hi, j, ⟨hj1, hj2⟩, rfl⟩

theorem chunk_sum_eq (f : Nat → ℚ) (n q : Nat) :
    ((List.range q).map (fun c => ((expressionTerms n (32 * c)).map f).sum)).sum
      = ((List.range (min (32 * q) n)).map f).sum := by
  induction q with
  | zero => simp
  | succ q ih =>
    rw [List.range_succ, List.map_append, List.sum_append, ih]
    simp only [List.map_cons, List.map_nil, List.sum_cons, List.sum_nil, add_zero]
    by_cases h : 32 * q ≤ n
    · have hmin : min (32 * q) n = 32 * q := by omega
      rw [hmin]
      unfold expressionTerms pyRange
      have happ : List.range (32 * q) ++
            List.range' (32 * q) (min (32 * q + 32) n - 32 * q)
          = List.range (min (32 * (q + 1)) n) := by
        rw [List.range_eq_range', List.range_eq_range']
        have hr := List.range'_append 0 (32 * q) (min (32 * q + 32) n - 32 * q) 1
        simp only [Nat.zero_add, Nat.one_mul] at hr
        rw [hr]
        congr 1
        omega
      rw [← happ, List.map_append, List.sum_append]
    · have hq : min (32 * q) n = n := by omega
      have hL : min (32 * q + 32) n - 32 * q = 0 := by omega
      have h2 : min (32 * (q + 1)) n = n := by omega
      unfold expressionTerms pyRange
      rw [hq, hL, h2]
      simp

theorem assembleTree_le (n : Nat) (h : n ≤ 32) :
    assembleTree n = .single (List.range n) := by
  unfold assembleTree
  rw [if_pos h]
  unfold expressionTerms pyRange
  have hm : min (0 + 32) n - 0 = n := by omega
  rw [hm, List.range_eq_range']

theorem assembledValue_assembleTree (n : Nat) (S : ℚ → ℚ) (r : Nat → ℚ) (t : ℚ) :
    assembledValue S r t (assembleTree n) = stepTermSum S r t (List.range n) := by
  by_cases h : n ≤ 32
  · rw [assembleTree_le n h]
    rfl
  · unfold assembleTree
    rw [if_neg h]
    show (((List.range (numChunks n)).map (fun c => expressionTerms n (32 * c))).map
        (stepTermSum S r t)).sum = stepTermSum S r t (List.range n)
    rw [List.map_map]
    have hch := chunk_sum_eq (fun i => S (r i / t)) n (numChunks n)
    have hmin : min (32 * numChunks n) n = n := by
      unfold numChunks
      omega
    rw [hmin] at hch
    simpa [stepTermSum, Function.comp] using hch

theorem getD_eq_get (l : List Nat) (k : Nat) (h : k < l.length) (d : Nat) :
    l.getD k d = l.get ⟨k, h⟩ := by
  rw [List.getD_eq_getElem?_getD, List.getElem?_eq_getElem h]
  rfl

theorem bounds_succ (bs : List Nat) (k : Nat) (h : k < bs.length) :
    bounds bs (k + 1) = bounds bs k + bs.getD k 0 := by
  unfold bounds
  rw [List.sum_take_succ _ _ h, getD_eq_get bs k h]
  rfl

theorem sum_map_const_nat (l : List Nat) (c : Nat) :
    (l.map (fun _ => c)).sum = l.length * c := by
  induction l with
  | nil => simp
  | cons a l ih =>
    simp only [List.map_cons, List.sum_cons, List.length_cons, ih]
    ring

theorem blockedResidueGroups_length (bs : List Nat) :
    (blockedResidueGroups bs).length =
      ∑ k ∈ Finset.range (bs.length - 1), (bs.getD k 0 - 2) * (bs.getD (k + 1) 0 - 2) := by
  unfold blockedResidueGroups
  rw [List.length_flatMap]
  have hpt : ∀ k ∈ List.range (bs.length - 1),
      (List.length ∘ fun k =>
        (pyRange (bounds bs k) (bounds bs (k + 1) - 2)).flatMap fun i =>
          (pyRange (bounds bs (k + 1)) (bounds bs (k + 2) - 2)).map fun j =>
            [i, i + 1, i + 2, j, j + 1, j + 2]) k
      = (bs.getD k 0 - 2) * (bs.getD (k + 1) 0 - 2) := by
    intro k hk
    rw [List.mem_range] at hk
    simp only [Function.comp_apply]
    rw [List.length_flatMap]
    have hinner : (List.map (List.length ∘ fun i =>
          (pyRange (bounds bs (k + 1)) (bounds bs (k + 2) - 2)).map fun j =>
            [i, i + 1, i + 2, j, j + 1, j + 2])
          (pyRange (bounds bs k) (bounds bs (k + 1) - 2)))
        = (pyRange (bounds bs k) (bounds bs (k + 1) - 2)).map
            (fun _ => bounds bs (k + 2) - 2 - bounds bs (k + 1)) := by
      refine List.map_congr_left (fun i _ => ?_)
      simp only [Function.comp_apply, List.length_map, length_pyRange]
    rw [hinner, sum_map_const_nat, length_pyRange]
    have hs1 := bounds_succ bs k (by omega)
    have hs2 : bounds bs (k + 2) = bounds bs (k + 1) + bs.getD (k + 1) 0 :=
      bounds_succ bs (k + 1) (by omega)
    have hA : bounds bs (k + 1) - 2 - bounds bs k = bs.getD k 0 - 2 := by omega
    have hB : bounds bs (k + 2) - 2 - bounds bs (k + 1) = bs.getD (k + 1) 0 - 2 := by
      omega
    rw [hA, hB]
  rw [List.map_congr_left hpt]
  rfl

theorem mem_blockedResidueGroups (bs : List Nat) :
    ∀ g, g ∈ blockedResidueGroups bs ↔
      ∃ k i j, k + 1 < bs.length ∧
        bounds bs k ≤ i ∧ i + 2 < bounds bs (k + 1) ∧
        bounds bs (k + 1) ≤ j ∧ j + 2 < bounds bs (k + 2) ∧
        g = [i, i + 1, i + 2, j, j + 1, j + 2] := by
  intro g
  unfold blockedResidueGroups
  simp only [List.mem_flatMap, List.mem_map, List.mem_range, mem_pyRange]
  constructor
  · rintro ⟨k, hk, i, ⟨hi1, hi2⟩, j, ⟨hj1, hj2⟩, rfl⟩
    exact ⟨k, i, j, by omega, hi1, by omega, hj1, by omega, rfl⟩
  · rintro ⟨k, i, j, hk, hi1, hi2, hj1, hj2, rfl⟩
    exact ⟨k, by omega, i, ⟨hi1, by omega⟩, j, ⟨hj1, by omega⟩, rfl⟩

theorem rmsdContentInit_ok_fields (residue_blocks : List (List Nat))
    (residues : List Residue) (normalize : Bool) (m : RMSDContentModel)
    (h : rmsdContentInit residue_blocks residues normalize = .ok m) :
    m.numResidueBlocks = residue_blocks.length ∧
    m.tree = assembleTree residue_blocks.length ∧
    m.normalize = normalize ∧
    1 ≤ residue_blocks.length ∧ residue_blocks.length ≤ 1024 := by
  unfold rmsdContentInit at h
  by_cases hc : 1 ≤ residue_blocks.length ∧ residue_blocks.length ≤ 1024
  · rw [if_pos hc] at h
    split at h
    · exact absurd h (by simp)
    · split at h
      · exact absurd h (by simp)
      · cases h
        exact ⟨rfl, rfl, rfl, hc.1, hc.2⟩
  · rw [if_neg hc] at h
    exact absurd h (by simp)

/-! Claim theorems. -/

/-- C1: for every unblocked construction of `SheetRMSDContent` over `n`
residues, the enumerated residue groups are exactly the groups
`[i, i+1, i+2, j, j+1, j+2]` with `0 ≤ i < n - 2 - d_min` and
`i + d_min ≤ j < n - 2`, where `d_min` is 6 for parallel and 5 for
antiparallel sheets, and the group count is
`(n - 2 - d_min) * (n - 1 - d_min) / 2`. -/
theorem sheet_unblocked_enumeration (n : Nat) (parallel : Bool) :
    (∀ g, g ∈ unblockedResidueGroups n parallel ↔
      ∃ i j, i < n - 2 - min_distance parallel ∧ i + min_distance parallel ≤ j ∧
        j < n - 2 ∧ g = [i, i + 1, i + 2, j, j + 1, j + 2]) ∧
    (unblockedResidueGroups n parallel).length =
      (n - 2 - min_distance parallel) * (n - 1 - min_distance parallel) / 2 ∧
    min_distance parallel = (if parallel then 6 else 5) ∧
    sheetResidueGroups n parallel none = .ok (unblockedResidueGroups n parallel) :=
  ⟨mem_unblockedResidueGroups n parallel, unblockedResidueGroups_length n parallel,
    rfl, rfl⟩

/-- C4: for every blocked construction of `SheetRMSDContent`, construction
fails when the sum of the block sizes differs from the residue count;
otherwise the enumerated groups are exactly the cross-boundary groups taking
`i` from block `k` minus its last two residues and `j` from block `k+1` minus
its last two residues, and the group count is the sum of
`(n_k - 2) * (n_{k+1} - 2)` over consecutive block pairs. -/
theorem sheet_blocked_enumeration (n : Nat) (parallel : Bool) (blockSizes : List Nat) :
    (blockSizes.sum ≠ n →
      ∃ msg, sheetResidueGroups n parallel (some blockSizes) = .error msg) ∧
    (blockSizes.sum = n →
      sheetResidueGroups n parallel (some blockSizes) =
        .ok (blockedResidueGroups blockSizes)) ∧
    (∀ g, g ∈ blockedResidueGroups blockSizes ↔
      ∃ k i j, k + 1 < blockSizes.length ∧
        bounds blockSizes k ≤ i ∧ i + 2 < bounds blockSizes (k + 1) ∧
        bounds blockSizes (k + 1) ≤ j ∧ j + 2 < bounds blockSizes (k + 2) ∧
        g = [i, i + 1, i + 2, j, j + 1, j + 2]) ∧
    (blockedResidueGroups blockSizes).length =
      ∑ k ∈ Finset.range (blockSizes.length - 1),
        (blockSizes.getD k 0 - 2) * (blockSizes.getD (k + 1) 0 - 2) := by
  refine ⟨fun hne => ?_, fun he => ?_,
    mem_blockedResidueGroups blockSizes, blockedResidueGroups_length blockSizes⟩
  · simp only [sheetResidueGroups]
    rw [if_neg hne]
    exact ⟨_, rfl⟩
  · simp only [sheetResidueGroups]
    rw [if_pos he]

/-- C2: for every list of residue groups, step function and threshold, the
value of the chunked assembly built by `RMSDContent.__init__` equals the
value of the unchunked single expression over the same groups, namely the sum
over all groups of `S(rmsd_i / threshold)`; chunking changes no result. -/
theorem chunked_equals_unchunked (groups : List (List Nat)) (S : ℚ → ℚ)
    (r : Nat → ℚ) (threshold : ℚ) :
    assembledValue S r threshold (assembleTree groups.length) =
      assembledValue S r threshold (.single (List.range groups.length)) ∧
    assembledValue S r threshold (assembleTree groups.length) =
      stepTermSum S r threshold (List.range groups.length) :=
  ⟨assembledValue_assembleTree groups.length S r threshold,
    assembledValue_assembleTree groups.length S r threshold⟩

/-- C3: with `1 ≤ n ≤ 1024` groups, the assembly produces a single expression
holding all `n` terms when `n ≤ 32`; otherwise it produces
`ceil(n / 32) = (n + 31) / 32 ≤ 32` chunks, group `i` lands in chunk
`i / 32`, every chunk holds at most 32 terms, each chunk term is a valid
group index, and the top level sums the chunk variables. -/
theorem chunk_structure (n : Nat) (h1 : 1 ≤ n) (h2 : n ≤ 1024) :
    (n ≤ 32 → assembleTree n = .single (List.range n)) ∧
    (32 < n → ∃ chunks, assembleTree n = .chunked chunks ∧
      chunks.length = (n + 31) / 32 ∧ (n + 31) / 32 ≤ 32 ∧
      (∀ c ∈ chunks, c.length ≤ 32) ∧
      (∀ i, i < n → i ∈ chunks.getD (i / 32) []) ∧
      (∀ c ∈ chunks, ∀ i ∈ c, i < n)) := by
  refine ⟨assembleTree_le n, fun hgt => ?_⟩
  refine ⟨(List.range (numChunks n)).map (fun c => expressionTerms n (32 * c)),
    ?_, ?_, ?_, ?_, ?_, ?_⟩
  · unfold assembleTree
    rw [if_neg (by omega)]
  · rw [List.length_map, List.length_range]
    rfl
  · unfold numChunks at *
    omega
  · intro c hc
    rw [List.mem_map] at hc
    obtain ⟨c0, _, rfl⟩ := hc
    unfold expressionTerms
    rw [length_pyRange]
    omega
  · intro i hi
    have hq : i / 32 < numChunks n := by
      unfold numChunks
      omega
    have hgd : ((List.range (numChunks n)).map
          (fun c => expressionTerms n (32 * c))).getD (i / 32) []
        = expressionTerms n (32 * (i / 32)) := by
      rw [List.getD_eq_getElem?_getD, List.getElem?_map,
        List.getElem?_range hq]
      rfl
    rw [hgd]
    unfold expressionTerms
    rw [mem_pyRange]
    omega
  · intro c hc i hi
    rw [List.mem_map] at hc
    obtain ⟨c0, _, rfl⟩ := hc
    unfold expressionTerms at hi
    rw [mem_pyRange] at hi
    omega

/-- C3 witness: the chunk-structure theorem instantiated at 100 groups. -/
theorem chunk_structure_witness :
    (100 ≤ 32 → assembleTree 100 = .single (List.range 100)) ∧
    (32 < 100 → ∃ chunks, assembleTree 100 = .chunked chunks ∧
      chunks.length = (100 + 31) / 32 ∧ (100 + 31) / 32 ≤ 32 ∧
      (∀ c ∈ chunks, c.length ≤ 32) ∧
      (∀ i, i < 100 → i ∈ chunks.getD (i / 32) []) ∧
      (∀ c ∈ chunks, ∀ i ∈ c, i < 100)) :=
  chunk_structure 100 (by norm_num) (by norm_num)

/-- C6: `RMSDContent` construction raises the configuration error exactly
when the number of residue groups lies outside `[1, 1024]`; inside that range
the check passes and construction proceeds (succeeding, or failing only later
in atom lookup or in block indexing, never with the configuration error). -/
theorem rmsd_content_block_count_check (residue_blocks : List (List Nat))
    (residues : List Residue) (normalize : Bool) :
    (isConfigError (rmsdContentInit residue_blocks residues normalize) = true ↔
      ¬(1 ≤ residue_blocks.length ∧ residue_blocks.length ≤ 1024)) ∧
    (1 ≤ residue_blocks.length ∧ residue_blocks.length ≤ 1024 →
      (∃ m, rmsdContentInit residue_blocks residues normalize = .ok m) ∨
      (∃ e, rmsdContentInit residue_blocks residues normalize =
        .error (.atomError e)) ∨
      ∃ idx, rmsdContentInit residue_blocks residues normalize =
        .error (.indexError idx)) := by
  unfold rmsdContentInit
  by_cases hc : 1 ≤ residue_blocks.length ∧ residue_blocks.length ≤ 1024
  · rw [if_pos hc]
    split
    · exact ⟨by simp [isConfigError, hc], fun _ => Or.inr (Or.inl ⟨_, rfl⟩)⟩
    · split
      · exact ⟨by simp [isConfigError, hc], fun _ => Or.inr (Or.inr ⟨_, rfl⟩)⟩
      · exact ⟨by simp [isConfigError, hc], fun _ => Or.inl ⟨_, rfl⟩⟩
  · rw [if_neg hc]
    exact ⟨by simp [isConfigError, hc], fun h => absurd h hc⟩

/-- C5: for every successful `RMSDContent` construction with `normalize`
set, the composite value is the sum of all step-function terms divided by the
number of residue groups (equivalently, the value of the same construction
without `normalize`, divided by the group count), and `getNumResidueBlocks`
returns exactly the number of residue groups passed to the constructor. -/
theorem rmsd_content_normalization (residue_blocks : List (List Nat))
    (residues : List Residue) (S : ℚ → ℚ) (r : Nat → ℚ) (threshold : ℚ)
    (m m' : RMSDContentModel)
    (h : rmsdContentInit residue_blocks residues true = .ok m)
    (h' : rmsdContentInit residue_blocks residues false = .ok m') :
    m.numResidueBlocks = residue_blocks.length ∧
    m'.numResidueBlocks = residue_blocks.length ∧
    modelValue m S r threshold =
      stepTermSum S r threshold (List.range residue_blocks.length) /
        (residue_blocks.length : ℚ) ∧
    modelValue m S r threshold =
      modelValue m' S r threshold / (m.numResidueBlocks : ℚ) := by
  obtain ⟨hn, htree, hnorm, _, _⟩ := rmsdContentInit_ok_fields _ _ _ _ h
  obtain ⟨hn', htree', hnorm', _, _⟩ := rmsdContentInit_ok_fields _ _ _ _ h'
  unfold modelValue
  rw [hnorm, hnorm', htree, htree', hn, hn', assembledValue_assembleTree]
  simp

/-- C5 witness: a one-group construction over an alanine residue, with the
identity step function, constant rmsd readings 3 and threshold 2. -/
theorem rmsd_content_normalization_witness :
    (⟨1, [[0, 1, 2, 3, 4]], .single [0], true⟩ :
        RMSDContentModel).numResidueBlocks = ([[0]] : List (List Nat)).length ∧
    (⟨1, [[0, 1, 2, 3, 4]], .single [0], false⟩ :
        RMSDContentModel).numResidueBlocks = ([[0]] : List (List Nat)).length ∧
    modelValue ⟨1, [[0, 1, 2, 3, 4]], .single [0], true⟩ (fun x => x) (fun _ => 3) 2 =
      stepTermSum (fun x => x) (fun _ => 3) 2
        (List.range ([[0]] : List (List Nat)).length) /
        (([[0]] : List (List Nat)).length : ℚ) ∧
    modelValue ⟨1, [[0, 1, 2, 3, 4]], .single [0], true⟩ (fun x => x) (fun _ => 3) 2 =
      modelValue ⟨1, [[0, 1, 2, 3, 4]], .single [0], false⟩ (fun x => x) (fun _ => 3) 2 /
        ((⟨1, [[0, 1, 2, 3, 4]], .single [0], true⟩ :
          RMSDContentModel).numResidueBlocks : ℚ) :=
  rmsd_content_normalization [[0]]
    [⟨"ALA", "1", [⟨"N", 0⟩, ⟨"CA", 1⟩, ⟨"CB", 2⟩, ⟨"C", 3⟩, ⟨"O", 4⟩]⟩]
    (fun x => x) (fun _ => 3) 2
    ⟨1, [[0, 1, 2, 3, 4]], .single [0], true⟩
    ⟨1, [[0, 1, 2, 3, 4]], .single [0], false⟩
    (by decide) (by decide)

/-- C8: for every glycine residue that has no CB atom but has atoms named
N, CA, C, O and HA2, `_getAtomList` succeeds, and the HA2 atom's index fills
the CB slot of the returned 5-atom list. -/
theorem gly_ha2_substitution (r : Residue) (nN nCA nC nO nH : Nat)
    (hname : r.name = "GLY") (hCB : atomIndexMap r "CB" = none)
    (hN : atomIndexMap r "N" = some nN) (hCA : atomIndexMap r "CA" = some nCA)
    (hC : atomIndexMap r "C" = some nC) (hO : atomIndexMap r "O" = some nO)
    (hH : atomIndexMap r "HA2" = some nH) :
    getAtomList r = .ok [nN, nCA, nH, nC, nO] := by
  unfold getAtomList
  rw [if_pos hname, hH]
  simp [requiredAtoms, lookupRequired, hN, hCA, hC, hO]

/-- C8 witness: a glycine residue with atoms N, CA, HA2, C, O (and no CB)
yields the 5-atom list with HA2's index in the CB position. -/
theorem gly_ha2_substitution_witness :
    getAtomList ⟨"GLY", "7", [⟨"N", 10⟩, ⟨"CA", 11⟩, ⟨"HA2", 12⟩, ⟨"C", 13⟩, ⟨"O", 14⟩]⟩ =
      .ok [10, 11, 12, 13, 14] :=
  gly_ha2_substitution
    ⟨"GLY", "7", [⟨"N", 10⟩, ⟨"CA", 11⟩, ⟨"HA2", 12⟩, ⟨"C", 13⟩, ⟨"O", 14⟩]⟩
    10 11 13 14 12 (by decide) (by decide) (by decide) (by decide) (by decide)
    (by decide) (by decide)

/-- C10: for every glycine residue with no atom named HA2, `_getAtomList`
fails with the bare `KeyError` on "HA2" from the substitution line, before
the descriptive-error path, so the error names neither a required atom nor
the offending residue. -/
theorem gly_missing_ha2_bare_key_error (r : Residue) (hname : r.name = "GLY")
    (hH : atomIndexMap r "HA2" = none) :
    getAtomList r = .error (.keyError "HA2") ∧
    ∀ a rn ri, getAtomList r ≠ .error (.valueError a rn ri) := by
  have hmain : getAtomList r = .error (.keyError "HA2") := by
    unfold getAtomList
    rw [if_pos hname, hH]
  refine ⟨hmain, fun a rn ri => ?_⟩
  rw [hmain]
  simp

/-- C10 witness: a glycine residue carrying all five required atoms
N, CA, CB, C, O, yet no HA2, still fails with the bare `KeyError`. -/
theorem gly_missing_ha2_bare_key_error_witness :
    getAtomList ⟨"GLY", "9", [⟨"N", 20⟩, ⟨"CA", 21⟩, ⟨"CB", 22⟩, ⟨"C", 23⟩, ⟨"O", 24⟩]⟩ =
      .error (.keyError "HA2") ∧
    ∀ a rn ri,
      getAtomList ⟨"GLY", "9", [⟨"N", 20⟩, ⟨"CA", 21⟩, ⟨"CB", 22⟩, ⟨"C", 23⟩, ⟨"O", 24⟩]⟩ ≠
        .error (.valueError a rn ri) :=
  gly_missing_ha2_bare_key_error
    ⟨"GLY", "9", [⟨"N", 20⟩, ⟨"CA", 21⟩, ⟨"CB", 22⟩, ⟨"C", 23⟩, ⟨"O", 24⟩]⟩
    (by decide) (by decide)

/-- C7 failing input: a glycine residue with atoms N, CA, C, O but neither
CB nor HA2. The required atom CB cannot be located, yet the construction
raises the bare `KeyError` on "HA2" — an error naming neither the missing
required atom nor the offending residue, contradicting the descriptive-error
guarantee. -/
theorem descriptive_error_missed_for_gly :
    getAtomList ⟨"GLY", "8", [⟨"N", 0⟩, ⟨"CA", 1⟩, ⟨"C", 2⟩, ⟨"O", 3⟩]⟩ =
      .error (.keyError "HA2") ∧
    ∀ a rn ri,
      getAtomList ⟨"GLY", "8", [⟨"N", 0⟩, ⟨"CA", 1⟩, ⟨"C", 2⟩, ⟨"O", 3⟩]⟩ ≠
        .error (.valueError a rn ri) := by
  have hmain : getAtomList ⟨"GLY", "8", [⟨"N", 0⟩, ⟨"CA", 1⟩, ⟨"C", 2⟩, ⟨"O", 3⟩]⟩ =
      .error (.keyError "HA2") := by decide
  refine ⟨hmain, fun a rn ri => ?_⟩
  rw [hmain]
  simp

/-- C9 counterexample: a 41-residue antiparallel sequence yields 595
unblocked groups, not 300 (the doctest's 300 groups come from a 31-residue
slice, `islice(residues, 10, 41)`). -/
theorem sheet_41_residues_not_300_groups :
    (unblockedResidueGroups 41 false).length = 595 ∧
    ¬(unblockedResidueGroups 41 false).length = 300 := by
  have h : (unblockedResidueGroups 41 false).length = 595 := by
    rw [unblockedResidueGroups_length]
    norm_num [min_distance]
  exact ⟨h, by rw [h]; norm_num⟩

/-- C9 amended: a 31-residue contiguous antiparallel sequence yields 300
unblocked groups, assembled into `ceil(300 / 32) = 10` chunks whose top-level
sum equals the unchunked reference sum over all 300 groups. -/
theorem sheet_31_residue_scenario :
    (unblockedResidueGroups 31 false).length = 300 ∧
    numChunks 300 = 10 ∧
    (∃ chunks, assembleTree 300 = .chunked chunks ∧ chunks.length = 10) ∧
    ∀ (S : ℚ → ℚ) (r : Nat → ℚ) (threshold : ℚ),
      assembledValue S r threshold (assembleTree 300) =
        assembledValue S r threshold (.single (List.range 300)) := by
  refine ⟨?_, rfl, ?_, fun S r threshold => assembledValue_assembleTree 300 S r threshold⟩
  · rw [unblockedResidueGroups_length]
    norm_num [min_distance]
  · refine ⟨(List.range (numChunks 300)).map (fun c => expressionTerms 300 (32 * c)), ?_, ?_⟩
    · unfold assembleTree
      rw [if_neg (by norm_num)]
    · rw [List.length_map, List.length_range]
      rfl

end CVPack
